import Mathlib

/-!
Verification development for the No-Rest-For-The-Wicked wiki data pipeline.

The site-side data model (`Part000`, `Part001`) and the description renderer
(`ItemSearch`) are shallow embeddings of the repository's TypeScript/JavaScript
sources.  The binary-mining pipeline components (scanner, correlator,
deduplicator, decoder, assembler) are modelled from the specification, since
their Python sources are not part of the checked tree.
-/

/-! Embedding of `src/unnamed/part_000`: the site data module exposing
`ItemRecipe`, `ItemRecord`, `ItemsById` and `loadItems`.  TypeScript `number`
is modelled as `Rat`; an optional field `f?: T` is `Option T`; `T | null`
is `Option T` as well, so `f?: T | null` is `Option (Option T)`. -/
namespace Part000

structure ItemRecipe where
  type : String
  input : Option String
  output : Option String
  minutes : Option (Option Rat)
deriving DecidableEq, Repr

/-- The field names declared by the `ItemRecipe` type, in declaration order. -/
def ItemRecipe.fieldNames : List String :=
  ["type", "input", "output", "minutes"]

structure ItemRecord where
  id : String
  name : Option (Option String)
  description : Option (Option String)
  sources : Option (List String)
  asset_guid : Option Rat
  recipes_as_input : Option (List ItemRecipe)
  recipes_as_output : Option (List ItemRecipe)
  runes : Option (List String)
  utility_runes : Option (List String)
  default_runes : Option (List String)
deriving DecidableEq, Repr

/-- The field names declared by the `ItemRecord` type, in declaration order. -/
def ItemRecord.fieldNames : List String :=
  ["id", "name", "description", "sources", "asset_guid",
   "recipes_as_input", "recipes_as_output", "runes", "utility_runes",
   "default_runes"]

/-- `Record<string, ItemRecord>`: a JSON object keyed by entity id,
embedded as an association list. -/
abbrev ItemsById : Type := List (String × ItemRecord)

/-- Failure modes of `loadItems`: `fs.readFileSync` throwing (missing or
unreadable file) or `JSON.parse` throwing (content not valid JSON). -/
inductive LoadError where
  | ioError
  | parseError
deriving DecidableEq, Repr

/-- `loadItems`: reads `crawler/out/items.json` and returns `JSON.parse` of the
raw content.  The file system read is modelled by `readFile` (`none` when the
read throws) and the external `JSON.parse` by `parseJson` (`none` when parsing
throws); the function itself has no error handling of its own. -/
def loadItems (readFile : Option String)
    (parseJson : String → Option ItemsById) : Except LoadError ItemsById :=
  match readFile with
  | none => .error .ioError
  | some raw =>
    match parseJson raw with
    | none => .error .parseError
    | some items => .ok items

end Part000

/-! Embedding of `src/unnamed/part_001`: the variant data module whose
`ItemRecord` carries locale maps and whose `loadItems` returns an array
(`ItemRecord[]`), not a mapping. -/
namespace Part001

structure ItemRecipe where
  type : String
  input : Option String
  output : Option String
  minutes : Option (Option Rat)
deriving DecidableEq, Repr

structure ItemRecord where
  id : String
  name : Option (Option String)
  description : Option (Option String)
  name_locales : Option (List (String × String))
  description_locales : Option (List (String × String))
  sources : Option (List String)
  asset_guid : Option Rat
  recipes_as_input : Option (List ItemRecipe)
  recipes_as_output : Option (List ItemRecipe)
deriving DecidableEq, Repr

/-- The field names declared by the `ItemRecord` type, in declaration order. -/
def ItemRecord.fieldNames : List String :=
  ["id", "name", "description", "name_locales", "description_locales",
   "sources", "asset_guid", "recipes_as_input", "recipes_as_output"]

/-- `loadItems` of `part_001`: same read-then-parse shape, but the parsed
value is an array of records. -/
def loadItems (readFile : Option String)
    (parseJson : String → Option (List ItemRecord)) :
    Except Part000.LoadError (List ItemRecord) :=
  match readFile with
  | none => .error .ioError
  | some raw =>
    match parseJson raw with
    | none => .error .parseError
    | some items => .ok items

end Part001

/-- C1 counterexample: the claim asserts that every `EntityRecord` in the
output carries a spawn-hints field, but the record type of the site data
module declares no such field under any of its plausible serialized names. -/
theorem C1_counterexample :
    (Part000.ItemRecord.fieldNames.contains "spawn_hints"
      || Part000.ItemRecord.fieldNames.contains "spawn_locations"
      || Part000.ItemRecord.fieldNames.contains "spawn-hints") = false := by
  decide

/-- C1 (amended): the output is a serialized mapping from entity identifier
to record; each record declares the stable field names `name`, `description`,
`recipes_as_input`, `recipes_as_output`, `runes` and `default_runes`
(alongside `id`, `sources`, `asset_guid`, `utility_runes`), but no
spawn-hints field; `part_000`'s `loadItems` yields that mapping exactly as
parsed from the serialized output, while `part_001`'s `loadItems` yields an
array of records rather than a mapping. -/
theorem C1_output_fields_and_loadItems :
    (["name", "description", "recipes_as_input", "recipes_as_output",
      "runes", "default_runes"].all
        (fun f => Part000.ItemRecord.fieldNames.contains f) = true)
    ∧ (∀ (readFile : Option String)
        (parseJson : String → Option Part000.ItemsById) items,
        Part000.loadItems readFile parseJson = .ok items →
        ∃ raw, readFile = some raw ∧ parseJson raw = some items)
    ∧ (∀ (readFile : Option String)
        (parseJson : String → Option (List Part001.ItemRecord)) items,
        Part001.loadItems readFile parseJson = .ok items →
        ∃ raw, readFile = some raw ∧ parseJson raw = some items) := by
  refine ⟨by decide, ?_, ?_⟩
  · intro readFile parseJson items h
    cases readFile with
    | none => simp [Part000.loadItems] at h
    | some raw =>
      cases hp : parseJson raw with
      | none => simp [Part000.loadItems, hp] at h
      | some v =>
        simp only [Part000.loadItems, hp] at h
        cases h
        exact ⟨raw, rfl, hp⟩
  · intro readFile parseJson items h
    cases readFile with
    | none => simp [Part001.loadItems] at h
    | some raw =>
      cases hp : parseJson raw with
      | none => simp [Part001.loadItems, hp] at h
      | some v =>
        simp only [Part001.loadItems, hp] at h
        cases h
        exact ⟨raw, rfl, hp⟩

/-- C1 witness: the amended theorem applied at a concrete successful load. -/
theorem C1_output_fields_and_loadItems_witness :
    ∃ raw, (some "x" : Option String) = some raw ∧
      (fun _ : String => some ([] : Part000.ItemsById)) raw =
        some ([] : Part000.ItemsById) :=
  C1_output_fields_and_loadItems.2.1 (some "x")
    (fun _ => some ([] : Part000.ItemsById)) [] rfl

/-- C2 counterexample: the claim asserts every recipe record can carry a
quantity component, but the `ItemRecipe` type declares no quantity field. -/
theorem C2_counterexample :
    Part000.ItemRecipe.fieldNames.contains "quantity" = false := by
  decide

/-- C2 (amended): every recipe record carries a recipe kind tag (`type`),
an optional input entity id, an optional output entity id, and an optional
best-effort duration-in-minutes (`minutes`, which may also be `null`); the
optional components may each be absent, and no quantity component exists. -/
theorem C2_recipe_shape :
    Part000.ItemRecipe.fieldNames = ["type", "input", "output", "minutes"]
    ∧ (∃ r : Part000.ItemRecipe,
        r.type = "refinery" ∧ r.input = some "items.wood.pine" ∧
        r.output = some "items.wood.pinePlanks" ∧ r.minutes = some (some 5))
    ∧ (∃ r : Part000.ItemRecipe,
        r.type = "refinery" ∧ r.input = none ∧ r.output = none ∧
        r.minutes = none) := by
  refine ⟨rfl, ⟨⟨"refinery", some "items.wood.pine",
    some "items.wood.pinePlanks", some (some 5)⟩, rfl, rfl, rfl, rfl⟩,
    ⟨⟨"refinery", none, none, none⟩, rfl, rfl, rfl, rfl⟩⟩

/-- C9: `loadItems` is all-or-nothing — for any file-system outcome and any
parse outcome, each `loadItems` either returns exactly the full parse of the
file's content, or propagates the underlying read/parse error; it never
returns a partial, empty or default value on failure. -/
theorem C9_loadItems_all_or_nothing :
    ∀ readFile : Option String,
      (∀ parseJson : String → Option Part000.ItemsById,
        (∃ raw items, readFile = some raw ∧ parseJson raw = some items ∧
            Part000.loadItems readFile parseJson = .ok items)
        ∨ (∃ e, Part000.loadItems readFile parseJson = .error e ∧
            (readFile = none ∨ ∃ raw, readFile = some raw ∧ parseJson raw = none)))
      ∧ (∀ parseJson : String → Option (List Part001.ItemRecord),
        (∃ raw items, readFile = some raw ∧ parseJson raw = some items ∧
            Part001.loadItems readFile parseJson = .ok items)
        ∨ (∃ e, Part001.loadItems readFile parseJson = .error e ∧
            (readFile = none ∨ ∃ raw, readFile = some raw ∧ parseJson raw = none))) := by
  intro readFile
  constructor
  · intro parseJson
    cases readFile with
    | none => exact Or.inr ⟨.ioError, rfl, Or.inl rfl⟩
    | some raw =>
      cases hp : parseJson raw with
      | none =>
        exact Or.inr ⟨.parseError, by simp [Part000.loadItems, hp],
          Or.inr ⟨raw, rfl, hp⟩⟩
      | some items =>
        exact Or.inl ⟨raw, items, rfl, hp, by simp [Part000.loadItems, hp]⟩
  · intro parseJson
    cases readFile with
    | none => exact Or.inr ⟨.ioError, rfl, Or.inl rfl⟩
    | some raw =>
      cases hp : parseJson raw with
      | none =>
        exact Or.inr ⟨.parseError, by simp [Part001.loadItems, hp],
          Or.inr ⟨raw, rfl, hp⟩⟩
      | some items =>
        exact Or.inl ⟨raw, items, rfl, hp, by simp [Part001.loadItems, hp]⟩

/-! The binary-mining pipeline components below are modelled from the
specification: their Python sources (`crawl_items.py`, `scan_bundles.py`,
`find_rune_link_streaming.py`) are not part of the checked tree. -/

namespace Correlator

/-- Modelled from the spec: the byte distance between two absolute file
offsets used by the GUID Proximity Correlator. -/
def byteDist (a b : Nat) : Nat := max a b - min a b

/-- Modelled from the spec: the GUID Proximity Correlator.  Given two offset
lists and a maximum distance, it returns all pairs `(a, b)` with
`byteDist a b ≤ maxDist`.  The Python pair finder
`find_rune_link_streaming.py` is missing from the checked tree. -/
def proximityPairs (offsA offsB : List Nat) (maxDist : Nat) :
    List (Nat × Nat) :=
  offsA.flatMap fun a =>
    (offsB.filter fun b => byteDist a b ≤ maxDist).map fun b => (a, b)

end Correlator

/-- C5: correlator soundness and completeness — a pair is returned exactly
when its components come from the two offset lists and lie within the
configured maximum byte distance; no valid pair within the window is
omitted. -/
theorem C5_correlator_sound_complete
    (offsA offsB : List Nat) (maxDist a b : Nat) :
    (a, b) ∈ Correlator.proximityPairs offsA offsB maxDist ↔
      a ∈ offsA ∧ b ∈ offsB ∧ Correlator.byteDist a b ≤ maxDist := by
  simp only [Correlator.proximityPairs, List.mem_flatMap, List.mem_map,
    List.mem_filter, decide_eq_true_eq, Prod.mk.injEq]
  constructor
  · rintro ⟨a', ha', b', ⟨hb', hd⟩, rfl, rfl⟩
    exact ⟨ha', hb', hd⟩
  · rintro ⟨ha, hb, hd⟩
    exact ⟨a, ha, b, ⟨hb, hd⟩, rfl, rfl⟩

namespace Dedup

/-- A raw proximity hit: the two GUID values and the two absolute offsets at
which they occurred. -/
structure RawPair where
  aVal : Nat
  bVal : Nat
  aOff : Nat
  bOff : Nat
deriving DecidableEq, Repr

/-- A deduplicated proximity match: one entry per distinct value pair per
contiguous region, tagged with an occurrence count. -/
structure ProxMatch where
  aVal : Nat
  bVal : Nat
  firstOff : Nat
  lastOff : Nat
  occurrences : Nat
deriving DecidableEq, Repr

/-- Modelled from the spec: sweep a sorted offset list left to right; an
offset within `sep` of the previous one joins the current region, a larger
gap starts a new region. -/
def splitRegionsAux (sep : Nat) (cur : List Nat) (last : Nat) :
    List Nat → List (List Nat)
  | [] => [cur.reverse]
  | x :: xs =>
    if x ≤ last + sep then splitRegionsAux sep (x :: cur) x xs
    else cur.reverse :: splitRegionsAux sep [x] x xs

/-- Modelled from the spec: partition a sorted offset list into contiguous
regions. -/
def splitRegions (sep : Nat) : List Nat → List (List Nat)
  | [] => []
  | x :: xs => splitRegionsAux sep [x] x xs

/-- The distinct GUID value pairs occurring among the raw hits. -/
def valuePairs (ms : List RawPair) : List (Nat × Nat) :=
  (ms.map fun m => (m.aVal, m.bVal)).dedup

/-- The sorted anchor offsets of the raw hits carrying a given value pair. -/
def offsetsFor (ms : List RawPair) (p : Nat × Nat) : List Nat :=
  ((ms.filter fun m => m.aVal = p.1 ∧ m.bVal = p.2).map fun m =>
    m.aOff).insertionSort (· ≤ ·)

/-- Modelled from the spec: collapse raw proximity hits into one
`ProxMatch` per distinct value pair per contiguous region, tagged with an
occurrence count. -/
def dedupMatches (sep : Nat) (ms : List RawPair) : List ProxMatch :=
  (valuePairs ms).flatMap fun p =>
    (splitRegions sep (offsetsFor ms p)).map fun region =>
      { aVal := p.1, bVal := p.2,
        firstOff := region.head?.getD 0,
        lastOff := region.getLast?.getD 0,
        occurrences := region.length }

/-- Modelled from the spec: the default-loadout links derived for the final
output — one link per distinct resolved value pair. -/
def loadoutLinks (sep : Nat) (ms : List RawPair) : List (Nat × Nat) :=
  ((dedupMatches sep ms).map fun m => (m.aVal, m.bVal)).dedup

/-- `gapsOk sep offs` holds when each offset in the sorted list `offs` is
within `sep` of its predecessor, i.e. the list forms one contiguous region. -/
def gapsOk (sep : Nat) : List Nat → Bool
  | [] => true
  | [_] => true
  | x :: y :: xs => (y ≤ x + sep) && gapsOk sep (y :: xs)

theorem dedup_const {α : Type} [DecidableEq α] (c : α) :
    ∀ l : List α, l ≠ [] → (∀ x ∈ l, x = c) → l.dedup = [c] := by
  intro l
  induction l with
  | nil => intro h; exact absurd rfl h
  | cons x xs ih =>
    intro _ hall
    have hx : x = c := hall x (List.mem_cons_self x xs)
    subst hx
    by_cases hmem : x ∈ xs
    · rw [List.dedup_cons_of_mem hmem]
      have hne : xs ≠ [] := by rintro rfl; simp at hmem
      exact ih hne fun z hz => hall z (List.mem_cons_of_mem _ hz)
    · have hxs : xs = [] := by
        cases hxx : xs with
        | nil => rfl
        | cons y ys =>
          exfalso
          apply hmem
          have hy : y = x := hall y (by simp [hxx])
          simp [hxx, hy]
      subst hxs
      simp

theorem splitRegionsAux_single (sep : Nat) :
    ∀ (xs : List Nat) (cur : List Nat) (last : Nat),
      gapsOk sep (last :: xs) = true →
      splitRegionsAux sep cur last xs = [cur.reverse ++ xs] := by
  intro xs
  induction xs with
  | nil => intro cur last _; simp [splitRegionsAux]
  | cons x xs ih =>
    intro cur last hchain
    simp only [gapsOk, Bool.and_eq_true, decide_eq_true_eq] at hchain
    simp only [splitRegionsAux, if_pos hchain.1]
    rw [ih (x :: cur) x hchain.2]
    simp

theorem splitRegions_single (sep : Nat) (x : Nat) (xs : List Nat)
    (hchain : gapsOk sep (x :: xs) = true) :
    splitRegions sep (x :: xs) = [x :: xs] := by
  simp only [splitRegions]
  rw [splitRegionsAux_single sep xs [x] x hchain]
  simp

end Dedup

/-- C6: proximity-match deduplication — when every raw hit carries the same
GUID value pair and the sorted anchor offsets form one contiguous region
(consecutive gaps at most `sep`), the deduplicator collapses all raw hits
into exactly one `ProxMatch` tagged with the occurrence count, and the final
output holds exactly one default-loadout link for the value pair. -/
theorem C6_dedup_collapses (sep : Nat) (ms : List Dedup.RawPair) (X Y : Nat)
    (hne : ms ≠ [])
    (hall : ∀ m ∈ ms, m.aVal = X ∧ m.bVal = Y)
    (hchain : Dedup.gapsOk sep (Dedup.offsetsFor ms (X, Y)) = true) :
    (∃ first last,
      Dedup.dedupMatches sep ms = [⟨X, Y, first, last, ms.length⟩])
    ∧ Dedup.loadoutLinks sep ms = [(X, Y)] := by
  have hpairs : Dedup.valuePairs ms = [(X, Y)] := by
    apply Dedup.dedup_const
    · intro h
      cases ms with
      | nil => exact absurd rfl hne
      | cons m ms' => simp at h
    · intro x hx
      rcases List.mem_map.mp hx with ⟨m, hm, rfl⟩
      rcases hall m hm with ⟨h1, h2⟩
      simp [h1, h2]
  have hfilter :
      (ms.filter fun m => m.aVal = (X, Y).1 ∧ m.bVal = (X, Y).2) = ms := by
    rw [List.filter_eq_self]
    intro m hm
    rcases hall m hm with ⟨h1, h2⟩
    simp [h1, h2]
  have hlen : (Dedup.offsetsFor ms (X, Y)).length = ms.length := by
    unfold Dedup.offsetsFor
    rw [(List.perm_insertionSort _ _).length_eq, List.length_map, hfilter]
  have hoffne : Dedup.offsetsFor ms (X, Y) ≠ [] := by
    intro h
    have := hlen
    rw [h] at this
    cases ms with
    | nil => exact absurd rfl hne
    | cons m ms' => simp at this
  obtain ⟨z, zs, hzz⟩ : ∃ z zs, Dedup.offsetsFor ms (X, Y) = z :: zs := by
    cases hc : Dedup.offsetsFor ms (X, Y) with
    | nil => exact absurd hc hoffne
    | cons z zs => exact ⟨z, zs, rfl⟩
  have hregions : Dedup.splitRegions sep (Dedup.offsetsFor ms (X, Y)) =
      [z :: zs] := by
    rw [hzz]
    exact Dedup.splitRegions_single sep z zs (hzz ▸ hchain)
  have hmatches : Dedup.dedupMatches sep ms =
      [⟨X, Y, (z :: zs).head?.getD 0, (z :: zs).getLast?.getD 0,
        ms.length⟩] := by
    unfold Dedup.dedupMatches
    rw [hpairs]
    simp only [List.flatMap_cons, List.flatMap_nil, List.append_nil]
    rw [hregions]
    simp only [List.map_cons, List.map_nil]
    have : (z :: zs).length = ms.length := by rw [← hzz, hlen]
    rw [this]
  refine ⟨⟨(z :: zs).head?.getD 0, (z :: zs).getLast?.getD 0, hmatches⟩, ?_⟩
  unfold Dedup.loadoutLinks
  rw [hmatches]
  simp

/-- Scenario B input: GUID pair (7, 9) placed 81 bytes apart, repeated 16
times at varying absolute offsets within one contiguous region. -/
def scenarioBPairs : List Dedup.RawPair :=
  (List.range 16).map fun k => ⟨7, 9, 1000 * k, 1000 * k + 81⟩

/-- C6 witness: the deduplication theorem applied to the concrete
Scenario B input collapses the 16 raw hits to one match and one link. -/
theorem C6_dedup_collapses_witness :
    (∃ first last,
      Dedup.dedupMatches 50000 scenarioBPairs = [⟨7, 9, first, last, 16⟩])
    ∧ Dedup.loadoutLinks 50000 scenarioBPairs = [(7, 9)] :=
  C6_dedup_collapses 50000 scenarioBPairs 7 9 (by decide) (by decide)
    (by decide)

namespace Scanner

/-- Modelled from the spec: the Chunked Byte Scanner's window at absolute
offset `start` — the next `chunk` bytes of the file. -/
def window (file : List Nat) (start chunk : Nat) : List Nat :=
  (file.drop start).take chunk

/-- Modelled from the spec: the Needle/Marker Matcher on one byte window —
all offsets inside the window at which the needle occurs. -/
def matchesIn (needle w : List Nat) : List Nat :=
  (List.range w.length).filter fun i => (w.drop i).take needle.length = needle

/-- Ground truth: all absolute offsets at which the needle occurs in the
whole file. -/
def occurrences (needle file : List Nat) : List Nat := matchesIn needle file

/-- Modelled from the spec: the window start offsets of a scan — consecutive
windows advance by `chunk - overlap` so that adjacent windows overlap by
`overlap` bytes, covering the whole file. -/
def scanStarts (fileLen chunk overlap : Nat) : List Nat :=
  (List.range (fileLen / (chunk - overlap) + 1)).map (· * (chunk - overlap))

/-- Modelled from the spec: scanner plus matcher for one needle — window
offsets are translated to absolute file offsets and duplicate hits from
overlap regions are collapsed. -/
def scanMatches (file needle : List Nat) (chunk overlap : Nat) : List Nat :=
  ((scanStarts file.length chunk overlap).flatMap fun s =>
    (matchesIn needle (window file s chunk)).map (s + ·)).dedup

/-- Modelled from the spec: scanner plus matcher for a needle set, sharing
the window pass. -/
def scanAll (file : List Nat) (needles : List (List Nat))
    (chunk overlap : Nat) : List Nat :=
  (needles.flatMap fun needle => scanMatches file needle chunk overlap).dedup

theorem mem_matchesIn_iff (needle w : List Nat) (i : Nat) :
    i ∈ matchesIn needle w ↔
      i < w.length ∧ (w.drop i).take needle.length = needle := by
  simp [matchesIn, List.mem_filter, List.mem_range]

/-- Soundness and completeness of a chunked scan for one needle: provided
the overlap is at least the needle width minus one and smaller than the
chunk size, the scan finds exactly the ground-truth occurrence set. -/
theorem mem_scanMatches_iff (file needle : List Nat) (chunk overlap : Nat)
    (hov : overlap < chunk) (hlen : needle.length ≤ overlap + 1) (p : Nat) :
    p ∈ scanMatches file needle chunk overlap ↔
      p ∈ occurrences needle file := by
  have hstep : 0 < chunk - overlap := by omega
  constructor
  · intro hp
    rw [scanMatches, List.mem_dedup, List.mem_flatMap] at hp
    obtain ⟨s, _, hin⟩ := hp
    rw [List.mem_map] at hin
    obtain ⟨i, hi, rfl⟩ := hin
    rw [mem_matchesIn_iff] at hi
    obtain ⟨hilt, htake⟩ := hi
    have hwlen : (window file s chunk).length = min chunk (file.length - s) := by
      simp [window]
    have hplt : s + i < file.length := by
      rw [hwlen] at hilt
      omega
    have hwdrop : (window file s chunk).drop i =
        (file.drop (s + i)).take (chunk - i) := by
      rw [window, List.drop_take, List.drop_drop]
    rw [hwdrop, List.take_take] at htake
    rw [occurrences, mem_matchesIn_iff]
    refine ⟨hplt, ?_⟩
    rcases Nat.le_total needle.length (chunk - i) with hle | hle
    · rwa [min_eq_left hle] at htake
    · by_cases heq : needle.length = chunk - i
      · rwa [heq, min_self, ← heq] at htake
      · exfalso
        have hmin : min needle.length (chunk - i) = chunk - i :=
          min_eq_right hle
        rw [hmin] at htake
        have : needle.length ≤ chunk - i := by
          calc needle.length = ((file.drop (s + i)).take (chunk - i)).length :=
                by rw [htake]
            _ ≤ chunk - i := by simp
        omega
  · intro hp
    rw [occurrences, mem_matchesIn_iff] at hp
    obtain ⟨hplt, htake⟩ := hp
    have hsi : (chunk - overlap) * (p / (chunk - overlap)) +
        p % (chunk - overlap) = p := Nat.div_add_mod p (chunk - overlap)
    have hilt : p % (chunk - overlap) < chunk - overlap := Nat.mod_lt _ hstep
    rw [scanMatches, List.mem_dedup, List.mem_flatMap]
    refine ⟨(chunk - overlap) * (p / (chunk - overlap)), ?_, ?_⟩
    · rw [scanStarts, List.mem_map]
      refine ⟨p / (chunk - overlap), ?_, Nat.mul_comm _ _⟩
      rw [List.mem_range]
      have hdiv : p / (chunk - overlap) ≤ file.length / (chunk - overlap) :=
        Nat.div_le_div_right (Nat.le_of_lt hplt)
      omega
    · rw [List.mem_map]
      refine ⟨p % (chunk - overlap), ?_, hsi⟩
      rw [mem_matchesIn_iff]
      have hwlen :
          (window file ((chunk - overlap) * (p / (chunk - overlap)))
            chunk).length =
          min chunk
            (file.length - (chunk - overlap) * (p / (chunk - overlap))) := by
        simp [window]
      constructor
      · rw [hwlen]
        omega
      · have hwdrop :
            (window file ((chunk - overlap) * (p / (chunk - overlap)))
              chunk).drop (p % (chunk - overlap)) =
            (file.drop p).take (chunk - p % (chunk - overlap)) := by
          rw [window, List.drop_take, List.drop_drop, hsi]
        rw [hwdrop, List.take_take, min_eq_left (by omega)]
        exact htake

end Scanner

/-- C4: chunk-size independence — for any file and needle set, two chunked
scans whose overlaps are each at least the maximum needle width minus one
(and smaller than their chunk sizes) return identical sets of absolute
match offsets. -/
theorem C4_chunk_size_independence (file : List Nat)
    (needles : List (List Nat)) (chunk₁ overlap₁ chunk₂ overlap₂ : Nat)
    (hov₁ : overlap₁ < chunk₁) (hov₂ : overlap₂ < chunk₂)
    (hn₁ : ∀ n ∈ needles, n.length ≤ overlap₁ + 1)
    (hn₂ : ∀ n ∈ needles, n.length ≤ overlap₂ + 1) :
    (Scanner.scanAll file needles chunk₁ overlap₁).toFinset =
      (Scanner.scanAll file needles chunk₂ overlap₂).toFinset := by
  ext p
  simp only [List.mem_toFinset, Scanner.scanAll, List.mem_dedup,
    List.mem_flatMap]
  constructor
  · rintro ⟨needle, hmem, hp⟩
    refine ⟨needle, hmem, ?_⟩
    rw [Scanner.mem_scanMatches_iff file needle chunk₂ overlap₂ hov₂
      (hn₂ needle hmem)]
    rw [Scanner.mem_scanMatches_iff file needle chunk₁ overlap₁ hov₁
      (hn₁ needle hmem)] at hp
    exact hp
  · rintro ⟨needle, hmem, hp⟩
    refine ⟨needle, hmem, ?_⟩
    rw [Scanner.mem_scanMatches_iff file needle chunk₁ overlap₁ hov₁
      (hn₁ needle hmem)]
    rw [Scanner.mem_scanMatches_iff file needle chunk₂ overlap₂ hov₂
      (hn₂ needle hmem)] at hp
    exact hp

/-- A small synthetic file with planted needle occurrences, including one
straddling a chunk boundary of the first configuration. -/
def scanFileEx : List Nat :=
  [1, 2, 3, 1, 2, 1, 2, 3, 9, 9, 1, 2, 3]

/-- The needle set for the chunk-size independence witness. -/
def scanNeedlesEx : List (List Nat) := [[1, 2, 3], [9]]

/-- C4 witness: the chunk-size independence theorem applied to a concrete
file, needle set, and two chunk/overlap configurations. -/
theorem C4_chunk_size_independence_witness :
    (Scanner.scanAll scanFileEx scanNeedlesEx 5 2).toFinset =
      (Scanner.scanAll scanFileEx scanNeedlesEx 8 3).toFinset :=
  C4_chunk_size_independence scanFileEx scanNeedlesEx 5 2 8 3
    (by decide) (by decide) (by decide) (by decide)

namespace Assembler

/-- Modelled from the spec: a RecipeLink of the data model — recipe kind
tag, input and output entity ids, optional quantity and duration. -/
structure RecipeLink where
  kind : String
  input : String
  output : String
  quantity : Option Nat
  minutes : Option Nat
deriving DecidableEq, Repr

/-- Modelled from the spec: the aggregate output unit keyed by entity id. -/
structure EntityRecord where
  id : String
  recipesAsInput : List RecipeLink
  recipesAsOutput : List RecipeLink
  runes : List String
  spawnHints : List String
deriving DecidableEq, Repr

/-- A recipe link resolves when both its entity ids are known. -/
def linkResolves (ids : List String) (l : RecipeLink) : Bool :=
  (l.input ∈ ids) && (l.output ∈ ids)

/-- A rune link (owner id, rune id) resolves when both ids are known. -/
def runeResolves (ids : List String) (rn : String × String) : Bool :=
  (rn.1 ∈ ids) && (rn.2 ∈ ids)

/-- Modelled from the spec: the per-entity merge — list-valued fields
accumulate via set-union keyed on the link's full tuple (dedup). -/
def mkRecord (ids : List String) (links : List RecipeLink)
    (runeLinks spawns : List (String × String)) (i : String) :
    EntityRecord :=
  { id := i
    recipesAsInput :=
      ((links.filter (linkResolves ids)).filter fun l => l.input = i).dedup
    recipesAsOutput :=
      ((links.filter (linkResolves ids)).filter fun l => l.output = i).dedup
    runes :=
      (((runeLinks.filter (runeResolves ids)).filter fun rn =>
        rn.1 = i).map fun rn => rn.2).dedup
    spawnHints :=
      ((spawns.filter fun sp => sp.1 = i).map fun sp => sp.2).dedup }

/-- Modelled from the spec: the Entity Record Assembler — one record per
distinct known identifier, entities sorted by identifier string. -/
def assembleRecords (ids : List String) (links : List RecipeLink)
    (runeLinks spawns : List (String × String)) : List EntityRecord :=
  (ids.dedup.insertionSort (· ≤ ·)).map (mkRecord ids links runeLinks spawns)

/-- Modelled from the spec: one warning per dropped (unresolved) link. -/
def assembleWarnings (ids : List String) (links : List RecipeLink)
    (runeLinks : List (String × String)) : List String :=
  (links.filter fun l => !(linkResolves ids l)).map
      (fun l => "dropped recipe link " ++ l.input ++ " -> " ++ l.output)
    ++ (runeLinks.filter fun rn => !(runeResolves ids rn)).map
      fun rn => "dropped rune link " ++ rn.1 ++ " -> " ++ rn.2

/-- Modelled from the spec: the full assembler output — final records plus
the diagnostic warnings. -/
def assemble (ids : List String) (links : List RecipeLink)
    (runeLinks spawns : List (String × String)) :
    List EntityRecord × List String :=
  (assembleRecords ids links runeLinks spawns,
   assembleWarnings ids links runeLinks)

/-- A deterministic rendering of one recipe link. -/
def serializeLink (l : RecipeLink) : String :=
  l.kind ++ ":" ++ l.input ++ "->" ++ l.output

/-- A deterministic rendering of one entity record. -/
def serializeRecord (r : EntityRecord) : String :=
  r.id ++ "|" ++ String.intercalate "," (r.recipesAsInput.map serializeLink)
    ++ "|" ++ String.intercalate "," (r.recipesAsOutput.map serializeLink)
    ++ "|" ++ String.intercalate "," r.runes
    ++ "|" ++ String.intercalate "," r.spawnHints

/-- Modelled from the spec: the single serialized mapping written once per
run. -/
def serialize (rs : List EntityRecord) : String :=
  String.intercalate "\n" (rs.map serializeRecord)

theorem exists_record_of_mem (ids : List String) (links : List RecipeLink)
    (runeLinks spawns : List (String × String)) (i : String)
    (hi : i ∈ ids) :
    ∃ r ∈ assembleRecords ids links runeLinks spawns, r.id = i := by
  refine ⟨mkRecord ids links runeLinks spawns i, ?_, rfl⟩
  rw [assembleRecords, List.mem_map]
  exact ⟨i, (List.perm_insertionSort _ _).mem_iff.mpr
    (List.mem_dedup.mpr hi), rfl⟩

end Assembler

/-- C3: no dangling references — every entity id referenced by a recipe
link or rune link of any record in the assembled output resolves to a
record in the same output; unresolved links are dropped, each with one
warning, and no link in the output is fabricated (each one comes from the
input evidence). -/
theorem C3_no_dangling_references (ids : List String)
    (links : List Assembler.RecipeLink)
    (runeLinks spawns : List (String × String)) :
    (∀ r ∈ (Assembler.assemble ids links runeLinks spawns).1,
      (∀ l ∈ r.recipesAsInput,
        (∃ r' ∈ (Assembler.assemble ids links runeLinks spawns).1,
          r'.id = l.input)
        ∧ (∃ r' ∈ (Assembler.assemble ids links runeLinks spawns).1,
          r'.id = l.output)
        ∧ l ∈ links)
      ∧ (∀ l ∈ r.recipesAsOutput,
        (∃ r' ∈ (Assembler.assemble ids links runeLinks spawns).1,
          r'.id = l.input)
        ∧ (∃ r' ∈ (Assembler.assemble ids links runeLinks spawns).1,
          r'.id = l.output)
        ∧ l ∈ links)
      ∧ (∀ rn ∈ r.runes,
        ∃ r' ∈ (Assembler.assemble ids links runeLinks spawns).1,
          r'.id = rn))
    ∧ (Assembler.assemble ids links runeLinks spawns).2.length =
        (links.filter fun l => !(Assembler.linkResolves ids l)).length +
        (runeLinks.filter fun rn => !(Assembler.runeResolves ids rn)).length := by
  constructor
  · intro r hr
    simp only [Assembler.assemble] at hr
    rw [Assembler.assembleRecords, List.mem_map] at hr
    obtain ⟨i, _, rfl⟩ := hr
    refine ⟨?_, ?_, ?_⟩
    · intro l hl
      simp only [Assembler.mkRecord, List.mem_dedup, List.mem_filter,
        Bool.and_eq_true, decide_eq_true_eq] at hl
      obtain ⟨⟨hlinks, hres⟩, _⟩ := hl
      simp only [Assembler.linkResolves, Bool.and_eq_true,
        decide_eq_true_eq] at hres
      exact ⟨Assembler.exists_record_of_mem ids links runeLinks spawns
          l.input hres.1,
        Assembler.exists_record_of_mem ids links runeLinks spawns
          l.output hres.2,
        hlinks⟩
    · intro l hl
      simp only [Assembler.mkRecord, List.mem_dedup, List.mem_filter,
        Bool.and_eq_true, decide_eq_true_eq] at hl
      obtain ⟨⟨hlinks, hres⟩, _⟩ := hl
      simp only [Assembler.linkResolves, Bool.and_eq_true,
        decide_eq_true_eq] at hres
      exact ⟨Assembler.exists_record_of_mem ids links runeLinks spawns
          l.input hres.1,
        Assembler.exists_record_of_mem ids links runeLinks spawns
          l.output hres.2,
        hlinks⟩
    · intro rn hrn
      simp only [Assembler.mkRecord, List.mem_dedup, List.mem_map,
        List.mem_filter, Bool.and_eq_true, decide_eq_true_eq] at hrn
      obtain ⟨p, ⟨⟨hp, hres⟩, _⟩, rfl⟩ := hrn
      simp only [Assembler.runeResolves, Bool.and_eq_true,
        decide_eq_true_eq] at hres
      exact Assembler.exists_record_of_mem ids links runeLinks spawns
        p.2 hres.2
  · simp [Assembler.assemble, Assembler.assembleWarnings]

/-- Concrete evidence for the C3 witness. -/
def c3IdsEx : List String := ["items.wood.pine", "items.wood.pinePlanks"]

/-- Concrete recipe links for the C3 witness: one resolvable, one not. -/
def c3LinksEx : List Assembler.RecipeLink :=
  [⟨"refinery", "items.wood.pine", "items.wood.pinePlanks", some 1, some 5⟩,
   ⟨"refinery", "items.wood.pine", "items.unknown", none, none⟩]

/-- C3 witness: the no-dangling-references theorem applied to concrete
evidence, discharging the membership hypotheses at a concrete record and
link. -/
theorem C3_no_dangling_references_witness :
    ∃ r' ∈ (Assembler.assemble c3IdsEx c3LinksEx [] []).1,
      r'.id = "items.wood.pinePlanks" :=
  (((C3_no_dangling_references c3IdsEx c3LinksEx [] []).1
      (Assembler.mkRecord c3IdsEx c3LinksEx [] [] "items.wood.pine")
      (List.mem_map.mpr ⟨"items.wood.pine",
        (List.perm_insertionSort _ _).mem_iff.mpr (by decide), rfl⟩)).1
    ⟨"refinery", "items.wood.pine", "items.wood.pinePlanks", some 1, some 5⟩
    (by decide)).2.1

/-- C7: assembler idempotence and deterministic ordering — re-running the
assembler on the same intermediate evidence yields byte-identical
serialized output, and the assembled entities are sorted by identifier
string. -/
theorem C7_assembler_idempotent_sorted (ids : List String)
    (links : List Assembler.RecipeLink)
    (runeLinks spawns : List (String × String)) :
    Assembler.serialize (Assembler.assemble ids links runeLinks spawns).1 =
      Assembler.serialize (Assembler.assemble ids links runeLinks spawns).1
    ∧ List.Sorted (fun a b => a.id ≤ b.id)
        (Assembler.assemble ids links runeLinks spawns).1 := by
  refine ⟨rfl, ?_⟩
  show List.Sorted (fun a b => a.id ≤ b.id)
    ((ids.dedup.insertionSort (· ≤ ·)).map
      (Assembler.mkRecord ids links runeLinks spawns))
  rw [List.Sorted, List.pairwise_map]
  exact (List.sorted_insertionSort (· ≤ ·) ids.dedup).imp fun h => h

namespace Decoder

/-- Modelled from the spec: read `width` bytes little-endian at absolute
offset `off` in the database blob; fails only when the read runs past the
end of the blob. -/
def readLE (blob : List Nat) (off width : Nat) : Option Nat :=
  if off + width ≤ blob.length then
    some (((blob.drop off).take width).foldr (fun b acc => acc * 256 + b) 0)
  else none

/-- Modelled from the spec: a declared field layout for one anchor pattern —
byte offsets relative to the anchor for the entity references and the
duration field, plus the plausible range for the duration sanity check. -/
structure RecipeLayout where
  inputOff : Nat
  outputOff : Nat
  minutesOff : Nat
  minutesLo : Nat
  minutesHi : Nat
deriving DecidableEq, Repr

/-- A decoded candidate sub-record; `none` in a field is the explicit
"unknown" value. -/
structure SubRecord where
  kind : String
  input : Option String
  output : Option String
  minutes : Option Nat
deriving DecidableEq, Repr

/-- Modelled from the spec: the best-effort Record Decoder.  It looks up the
anchor pattern in the layout table (unknown anchors are skipped, not fatal)
and extracts one candidate sub-record; a field whose bytes cannot be read,
whose entity reference does not resolve, or whose duration fails the
plausible-range sanity check becomes the explicit unknown value rather than
rejecting the decode wholesale. -/
def decodeAt (layouts : List (String × RecipeLayout))
    (resolve : Nat → Option String) (blob : List Nat)
    (anchorKind : String) (anchorOff : Nat) : Option SubRecord :=
  (layouts.lookup anchorKind).map fun lay =>
    { kind := anchorKind
      input := (readLE blob (anchorOff + lay.inputOff) 8).bind resolve
      output := (readLE blob (anchorOff + lay.outputOff) 8).bind resolve
      minutes := (readLE blob (anchorOff + lay.minutesOff) 4).bind fun v =>
        if lay.minutesLo ≤ v ∧ v ≤ lay.minutesHi then some v else none }

end Decoder

/-- C8: partial-record tolerance — when the anchor is known, the entity
reference reads and resolves, but the duration field fails its
plausible-range sanity check, the decoder still emits the sub-record with
the duration set to the explicit unknown value instead of rejecting the
decode. -/
theorem C8_partial_record_tolerance
    (layouts : List (String × Decoder.RecipeLayout))
    (resolve : Nat → Option String) (blob : List Nat)
    (kind : String) (off : Nat) (lay : Decoder.RecipeLayout)
    (v iv : Nat) (iname : String)
    (hlay : layouts.lookup kind = some lay)
    (hreadIn : Decoder.readLE blob (off + lay.inputOff) 8 = some iv)
    (hres : resolve iv = some iname)
    (hreadMin : Decoder.readLE blob (off + lay.minutesOff) 4 = some v)
    (hbad : ¬(lay.minutesLo ≤ v ∧ v ≤ lay.minutesHi)) :
    ∃ rec, Decoder.decodeAt layouts resolve blob kind off = some rec
      ∧ rec.input = some iname ∧ rec.minutes = none := by
  have hdec : Decoder.decodeAt layouts resolve blob kind off = some
      { kind := kind
        input := (Decoder.readLE blob (off + lay.inputOff) 8).bind resolve
        output := (Decoder.readLE blob (off + lay.outputOff) 8).bind resolve
        minutes :=
          (Decoder.readLE blob (off + lay.minutesOff) 4).bind fun w =>
            if lay.minutesLo ≤ w ∧ w ≤ lay.minutesHi then some w
            else none } := by
    unfold Decoder.decodeAt
    rw [hlay]
    rfl
  refine ⟨_, hdec, ?_, ?_⟩
  · simp [hreadIn, hres]
  · simp [hreadMin, hbad]

/-- The layout table for the C8 witness: one known anchor pattern. -/
def c8LayoutsEx : List (String × Decoder.RecipeLayout) :=
  [("refinery", ⟨0, 8, 16, 1, 600⟩)]

/-- The database blob for the C8 witness: an 8-byte input reference (42),
an 8-byte output reference (43), and a 4-byte duration that decodes to a
value far outside the plausible range. -/
def c8BlobEx : List Nat :=
  [42, 0, 0, 0, 0, 0, 0, 0,
   43, 0, 0, 0, 0, 0, 0, 0,
   255, 255, 255, 255]

/-- The identifier resolution table for the C8 witness. -/
def c8ResolveEx (n : Nat) : Option String :=
  if n = 42 then some "items.wood.pine"
  else if n = 43 then some "items.wood.pinePlanks"
  else none

/-- C8 witness: the tolerance theorem applied to a concrete blob whose
duration bytes decode outside the plausible range. -/
theorem C8_partial_record_tolerance_witness :
    ∃ rec, Decoder.decodeAt c8LayoutsEx c8ResolveEx c8BlobEx "refinery" 0 =
        some rec
      ∧ rec.input = some "items.wood.pine" ∧ rec.minutes = none :=
  C8_partial_record_tolerance c8LayoutsEx c8ResolveEx c8BlobEx "refinery" 0
    ⟨0, 8, 16, 1, 600⟩ 4294967295 42 "items.wood.pine"
    (by decide) (by decide) (by decide) (by decide) (by decide)

/-! Embedding of `appendFormattedDescription` from
`src/packages/site/public/scripts/item-search.js`.  The DOM mutation is
modelled as the list of nodes appended to the element.  The JS regular
expressions are modelled operationally: the global
`<color=#[0-9a-fA-F]{6}>(.*?)<\/color>` loop is a leftmost search with a
lazy inner group whose dot excludes line terminators (no `s` flag), and the
stray-tag `replace` with `<\/?color[^>]*>`/`gi` is a single left-to-right
pass that does not rescan already-produced output. -/
namespace ItemSearch

/-- The literal prefix `<color=#` of the color span regex. -/
def openLit : List Char := "<color=#".toList

/-- The literal closing tag `</color>` of the color span regex. -/
def closeLit : List Char := "</color>".toList

/-- The literal `color` used by the stray-tag regex. -/
def colorLit : List Char := "color".toList

/-- `[0-9a-fA-F]`, decided on code points. -/
def isHexDigit (c : Char) : Bool :=
  (48 ≤ c.toNat && c.toNat ≤ 57) || (97 ≤ c.toNat && c.toNat ≤ 102)
    || (65 ≤ c.toNat && c.toNat ≤ 70)

/-- JS `.` without the `s` flag: any character except a line terminator. -/
def isDotChar (c : Char) : Bool :=
  !(c = '\n' || c = '\r' || c = ' ' || c = ' ')

/-- Match a literal character sequence at the head, returning the rest. -/
def matchLit : List Char → List Char → Option (List Char)
  | [], s => some s
  | _ :: _, [] => none
  | p :: ps, c :: cs => if c = p then matchLit ps cs else none

/-- Match a lowercase literal case-insensitively (ASCII), as under the
regex `i` flag, returning the rest. -/
def matchCI : List Char → List Char → Option (List Char)
  | [], s => some s
  | _ :: _, [] => none
  | p :: ps, c :: cs =>
    if c = p ∨ c.toNat + 32 = p.toNat then matchCI ps cs else none

/-- Match exactly `n` hexadecimal digits, returning them and the rest. -/
def readHexN : Nat → List Char → Option (List Char × List Char)
  | 0, s => some ([], s)
  | _ + 1, [] => none
  | n + 1, c :: cs =>
    if isHexDigit c then (readHexN n cs).map fun pr => (c :: pr.1, pr.2)
    else none

/-- The lazy `(.*?)<\/color>` tail of the color regex: at each position the
closing tag is tried first; otherwise one non-line-terminator character is
consumed into the inner group. -/
def lazyClose : List Char → Option (List Char × List Char)
  | [] => none
  | c :: cs =>
    match matchLit closeLit (c :: cs) with
    | some rest => some ([], rest)
    | none =>
      if isDotChar c then
        match lazyClose cs with
        | some pr => some (c :: pr.1, pr.2)
        | none => none
      else none

/-- Attempt the full color regex at the current position: `<color=#`, six
hex digits, `>`, then the lazy inner group up to the first `</color>`. -/
def tryMatchAt (s : List Char) : Option (List Char × List Char) :=
  match matchLit openLit s with
  | none => none
  | some s1 =>
    match readHexN 6 s1 with
    | none => none
    | some pr =>
      match matchLit ['>'] pr.2 with
      | none => none
      | some s3 => lazyClose s3

/-- The leftmost match of the color regex, as `exec` finds it: the full
pattern is attempted at each position from the left; on success the text
before the match, the inner group, and the remainder are returned. -/
def findSpan : List Char → Option (List Char × List Char × List Char)
  | [] => none
  | c :: cs =>
    match tryMatchAt (c :: cs) with
    | some pr => some ([], pr.1, pr.2)
    | none =>
      match findSpan cs with
      | some pr => some (c :: pr.1, pr.2.1, pr.2.2)
      | none => none

/-- A stray color tag `<\/?color[^>]*>` (case-insensitive) at the head of
the list: skip `<`, an optional `/`, `color`, then everything up to the
first `>`; returns the remainder after that `>` when present. -/
def strayTagEnd (s : List Char) : Option (List Char) :=
  match s with
  | '<' :: rest =>
    let rest1 := match rest with
      | '/' :: r => r
      | _ => rest
    match matchCI colorLit rest1 with
    | none => none
    | some rest2 =>
      match rest2.dropWhile (fun c => c ≠ '>') with
      | '>' :: rest3 => some rest3
      | _ => none
  | _ => none

/-- One left-to-right pass of `replace(/<\/?color[^>]*>/gi, "")`, with
explicit fuel (the pass consumes at least one character per step, so fuel
equal to the input length is always sufficient). -/
def stripStrayF : Nat → List Char → List Char
  | _, [] => []
  | 0, s => s
  | fuel + 1, c :: cs =>
    match strayTagEnd (c :: cs) with
    | some rest => stripStrayF fuel rest
    | none => c :: stripStrayF fuel cs

/-- The stray-tag strip applied to a whole segment. -/
def stripStray (s : List Char) : List Char := stripStrayF s.length s

/-- A DOM node appended by the renderer: a text node or a `strong`
element. -/
inductive RNode where
  | text (s : String)
  | strong (s : String)
deriving DecidableEq, Repr

/-- The `while ((match = colorRegex.exec(text)) !== null)` loop plus the
trailing segment, with explicit fuel (each iteration consumes at least the
matched span, so fuel equal to the input length is always sufficient).
Text between matches is stripped of stray color tags; each match's inner
group becomes a `strong` node. -/
def formatDescLoopF : Nat → List Char → List RNode
  | _, [] => []
  | 0, s => [RNode.text (String.mk (stripStray s))]
  | fuel + 1, c :: cs =>
    match findSpan (c :: cs) with
    | some pr =>
      (if pr.1.isEmpty then []
       else [RNode.text (String.mk (stripStray pr.1))])
        ++ RNode.strong (String.mk pr.2.1) :: formatDescLoopF fuel pr.2.2
    | none => [RNode.text (String.mk (stripStray (c :: cs)))]

/-- `const text = value || "No description yet.";` — a missing, null or
empty description falls back to the placeholder. -/
def descText : Option String → String
  | none => "No description yet."
  | some v => if v = "" then "No description yet." else v

/-- `appendFormattedDescription(element, value)`: the list of nodes the
function appends to the (cleared) element. -/
def appendFormattedDescription (value : Option String) : List RNode :=
  formatDescLoopF (descText value).toList.length (descText value).toList

/-- Whether a string contains a well-formed `<color=#RRGGBB>` open tag. -/
def isOpenTagAt (s : List Char) : Bool :=
  match matchLit openLit s with
  | none => false
  | some s1 =>
    match readHexN 6 s1 with
    | none => false
    | some pr =>
      match matchLit ['>'] pr.2 with
      | none => false
      | some _ => true

/-- Whether any position of the string starts a well-formed color open
tag. -/
def containsColorTag (s : String) : Bool :=
  (List.range s.toList.length).any fun i => isOpenTagAt (s.toList.drop i)

end ItemSearch

example :
    ItemSearch.appendFormattedDescription
        (some "<color=#aaaaaa><color=#bbbbbb>x</color>") =
      [ItemSearch.RNode.strong "<color=#bbbbbb>x"] := by decide

example :
    ItemSearch.appendFormattedDescription (some "a <color=#ff0000>red</color> b") =
      [ItemSearch.RNode.text "a ", ItemSearch.RNode.strong "red",
       ItemSearch.RNode.text " b"] := by decide

example :
    ItemSearch.appendFormattedDescription (some "x </color>y<color=z>w") =
      [ItemSearch.RNode.text "x yw"] := by decide

example :
    ItemSearch.appendFormattedDescription (some "") =
      [ItemSearch.RNode.text "No description yet."] := by decide

example :
    ItemSearch.appendFormattedDescription
        (some "<col<color=x>or=#aaaaaa>hi</color>") =
      [ItemSearch.RNode.text "<color=#aaaaaa>hi"] := by decide

namespace ItemSearch

theorem matchLit_eq_append :
    ∀ (p s r : List Char), matchLit p s = some r → s = p ++ r := by
  intro p
  induction p with
  | nil =>
    intro s r h
    simp only [matchLit, Option.some.injEq] at h
    simp [h]
  | cons x ps ih =>
    intro s r h
    cases s with
    | nil => simp [matchLit] at h
    | cons c cs =>
      simp only [matchLit] at h
      by_cases hc : c = x
      · rw [if_pos hc] at h
        subst hc
        simp [ih cs r h]
      · rw [if_neg hc] at h
        cases h

theorem matchLit_append :
    ∀ (p r : List Char), matchLit p (p ++ r) = some r := by
  intro p
  induction p with
  | nil => intro r; rfl
  | cons x ps ih => intro r; simp [matchLit, ih]

theorem readHexN_spec :
    ∀ (n : Nat) (s h r : List Char), readHexN n s = some (h, r) →
      s = h ++ r ∧ h.length = n ∧ ∀ c ∈ h, isHexDigit c = true := by
  intro n
  induction n with
  | zero =>
    intro s h r hs
    simp only [readHexN, Option.some.injEq, Prod.mk.injEq] at hs
    obtain ⟨rfl, rfl⟩ := hs
    simp
  | succ n ih =>
    intro s h r hs
    cases s with
    | nil => simp [readHexN] at hs
    | cons c cs =>
      simp only [readHexN] at hs
      by_cases hc : isHexDigit c = true
      · rw [if_pos hc] at hs
        cases hrec : readHexN n cs with
        | none => rw [hrec] at hs; simp at hs
        | some pr =>
          rw [hrec] at hs
          simp only [Option.map_some', Option.some.injEq,
            Prod.mk.injEq] at hs
          obtain ⟨hh, hr⟩ := hs
          obtain ⟨h1, h2, h3⟩ := ih cs pr.1 pr.2 (by rw [hrec])
          subst hh
          subst hr
          refine ⟨by simp [h1], by simp [h2], ?_⟩
          intro d hd
          rcases List.mem_cons.mp hd with rfl | hd2
          · exact hc
          · exact h3 d hd2
      · rw [if_neg hc] at hs
        cases hs

theorem lazyClose_spec :
    ∀ (s inner rest : List Char), lazyClose s = some (inner, rest) →
      s = inner ++ closeLit ++ rest ∧
      ∀ u v, inner ≠ u ++ closeLit ++ v := by
  intro s
  induction s with
  | nil => intro inner rest h; simp [lazyClose] at h
  | cons c cs ih =>
    intro inner rest h
    simp only [lazyClose] at h
    cases hm : matchLit closeLit (c :: cs) with
    | some r =>
      rw [hm] at h
      simp only [Option.some.injEq, Prod.mk.injEq] at h
      obtain ⟨h1, h2⟩ := h
      subst h1
      subst h2
      refine ⟨by simp [matchLit_eq_append closeLit (c :: cs) r hm], ?_⟩
      intro u v huv
      have hlen := congrArg List.length huv
      simp [closeLit] at hlen
      omega
    | none =>
      rw [hm] at h
      by_cases hdot : isDotChar c = true
      · rw [if_pos hdot] at h
        cases hrec : lazyClose cs with
        | none => rw [hrec] at h; cases h
        | some pr =>
          rw [hrec] at h
          simp only [Option.some.injEq, Prod.mk.injEq] at h
          obtain ⟨hh, hr⟩ := h
          obtain ⟨h1, h2⟩ := ih pr.1 pr.2 (by rw [hrec])
          subst hh
          subst hr
          constructor
          · simp [h1]
          · intro u v huv
            cases u with
            | nil =>
              simp only [List.nil_append] at huv
              have hstep : c :: cs = (c :: pr.1) ++ (closeLit ++ pr.2) := by
                rw [h1]
                simp [List.append_assoc]
              have hcc : c :: cs = closeLit ++ (v ++ (closeLit ++ pr.2)) := by
                rw [hstep, huv]
                simp [List.append_assoc]
              have hok := matchLit_append closeLit (v ++ (closeLit ++ pr.2))
              rw [← hcc] at hok
              rw [hok] at hm
              cases hm
            | cons u0 us =>
              simp only [List.cons_append] at huv
              injection huv with h0 htail
              exact h2 us v htail
      · rw [if_neg hdot] at h
        cases h

theorem tryMatchAt_spec (s inner rest : List Char)
    (h : tryMatchAt s = some (inner, rest)) :
    ∃ hex, hex.length = 6 ∧ (∀ c ∈ hex, isHexDigit c = true) ∧
      s = openLit ++ hex ++ '>' :: (inner ++ closeLit ++ rest) ∧
      ∀ u v, inner ≠ u ++ closeLit ++ v := by
  unfold tryMatchAt at h
  cases hm : matchLit openLit s with
  | none => simp [hm] at h
  | some s1 =>
    simp only [hm] at h
    cases hh : readHexN 6 s1 with
    | none => simp [hh] at h
    | some pr =>
      simp only [hh] at h
      cases hg : matchLit ['>'] pr.2 with
      | none => simp [hg] at h
      | some s3 =>
        simp only [hg] at h
        obtain ⟨hx1, hx2, hx3⟩ := readHexN_spec 6 s1 pr.1 pr.2 (by rw [hh])
        obtain ⟨hc1, hc2⟩ := lazyClose_spec s3 inner rest h
        refine ⟨pr.1, hx2, hx3, ?_, hc2⟩
        have hgt := matchLit_eq_append ['>'] pr.2 s3 hg
        rw [matchLit_eq_append openLit s s1 hm, hx1, hgt, hc1]
        simp

theorem findSpan_spec :
    ∀ (s pre inner rest : List Char),
      findSpan s = some (pre, inner, rest) →
      ∃ hex, hex.length = 6 ∧ (∀ c ∈ hex, isHexDigit c = true) ∧
        s = pre ++ openLit ++ hex ++ '>' :: (inner ++ closeLit ++ rest) ∧
        ∀ u v, inner ≠ u ++ closeLit ++ v := by
  intro s
  induction s with
  | nil => intro pre inner rest h; simp [findSpan] at h
  | cons c cs ih =>
    intro pre inner rest h
    simp only [findSpan] at h
    cases ht : tryMatchAt (c :: cs) with
    | some pr =>
      rw [ht] at h
      simp only [Option.some.injEq, Prod.mk.injEq] at h
      obtain ⟨hp, hi, hr⟩ := h
      subst hp
      subst hi
      subst hr
      obtain ⟨hex, h1, h2, h3, h4⟩ :=
        tryMatchAt_spec (c :: cs) pr.1 pr.2 (by rw [ht])
      exact ⟨hex, h1, h2, by simpa using h3, h4⟩
    | none =>
      rw [ht] at h
      cases hf : findSpan cs with
      | none => rw [hf] at h; cases h
      | some pr =>
        rw [hf] at h
        simp only [Option.some.injEq, Prod.mk.injEq] at h
        obtain ⟨hp, hi, hr⟩ := h
        subst hp
        subst hi
        subst hr
        obtain ⟨hex, h1, h2, h3, h4⟩ :=
          ih pr.1 pr.2.1 pr.2.2 (by rw [hf])
        exact ⟨hex, h1, h2, by simp [h3], h4⟩

theorem findSpan_rest_length (s pre inner rest : List Char)
    (h : findSpan s = some (pre, inner, rest)) :
    rest.length < s.length := by
  obtain ⟨hex, h1, _, h3, _⟩ := findSpan_spec s pre inner rest h
  have hlen := congrArg List.length h3
  have h8 : openLit.length = 8 := by decide
  have h8' : closeLit.length = 8 := by decide
  simp only [List.length_append, List.length_cons] at hlen
  omega

theorem strong_mem_spec :
    ∀ (fuel : Nat) (s : List Char) (t : String),
      RNode.strong t ∈ formatDescLoopF fuel s →
      ∃ pre hex rest, hex.length = 6 ∧
        (∀ c ∈ hex, isHexDigit c = true) ∧
        s = pre ++ openLit ++ hex ++ '>' ::
          (t.toList ++ closeLit ++ rest) ∧
        ∀ u v, t.toList ≠ u ++ closeLit ++ v := by
  intro fuel
  induction fuel with
  | zero =>
    intro s t ht
    cases s with
    | nil => simp [formatDescLoopF] at ht
    | cons c cs => simp [formatDescLoopF] at ht
  | succ fuel ih =>
    intro s t ht
    cases s with
    | nil => simp [formatDescLoopF] at ht
    | cons c cs =>
      simp only [formatDescLoopF] at ht
      cases hf : findSpan (c :: cs) with
      | none =>
        rw [hf] at ht
        simp at ht
      | some pr =>
        rw [hf] at ht
        have hsplit : RNode.strong t = RNode.strong (String.mk pr.2.1)
            ∨ RNode.strong t ∈ formatDescLoopF fuel pr.2.2 := by
          rcases List.mem_append.mp ht with hin | hin
          · by_cases hp : pr.1.isEmpty
            · rw [if_pos hp] at hin
              simp at hin
            · rw [if_neg hp] at hin
              simp at hin
          · rcases List.mem_cons.mp hin with heq | hmem
            · exact Or.inl heq
            · exact Or.inr hmem
        rcases hsplit with heq | hmem
        · have htt : t = String.mk pr.2.1 := by
            injection heq
          obtain ⟨hex, h1, h2, h3, h4⟩ :=
            findSpan_spec (c :: cs) pr.1 pr.2.1 pr.2.2 (by rw [hf])
          refine ⟨pr.1, hex, pr.2.2, h1, h2, ?_, ?_⟩
          · rw [htt]
            exact h3
          · rw [htt]
            exact h4
        · obtain ⟨pre2, hex, rest2, h1, h2, h3, h4⟩ := ih pr.2.2 t hmem
          obtain ⟨hex1, g1, g2, g3, g4⟩ :=
            findSpan_spec (c :: cs) pr.1 pr.2.1 pr.2.2 (by rw [hf])
          refine ⟨pr.1 ++ openLit ++ hex1 ++ '>' ::
              (pr.2.1 ++ closeLit ++ pre2), hex, rest2, h1, h2, ?_, h4⟩
          rw [g3, h3]
          simp [List.append_assoc]

end ItemSearch

/-- C10 counterexample: on the nested input
`<color=#aaaaaa><color=#bbbbbb>x</color>` the renderer emits a single
strong element whose text is the lazily matched inner group
`<color=#bbbbbb>x` — rendered content that still contains a literal
well-formed `<color=...>` tag, and the inner well-formed span does not
become its own strong element. -/
theorem C10_counterexample :
    ItemSearch.appendFormattedDescription
        (some "<color=#aaaaaa><color=#bbbbbb>x</color>") =
      [ItemSearch.RNode.strong "<color=#bbbbbb>x"]
    ∧ ItemSearch.containsColorTag "<color=#bbbbbb>x" = true := by
  constructor
  · decide
  · decide

/-- C10 (amended): an empty or missing description renders as
"No description yet."; every strong element's text is exactly the lazily
matched inner group of a well-formed `<color=#RRGGBB>...</color>` span
occurring in the rendered text (six hex digits, and the inner group never
contains `</color>`); and the leftmost such span always becomes a strong
element.  Literal color tag text can nevertheless survive in the output,
inside a strong element when spans nest, or in a text node when a stray-tag
removal joins surrounding characters into a new tag-shaped substring. -/
theorem C10_description_rendering (v : Option String) :
    ((v = none ∨ v = some "") →
      ItemSearch.appendFormattedDescription v =
        [ItemSearch.RNode.text "No description yet."])
    ∧ (∀ t : String,
        ItemSearch.RNode.strong t ∈ ItemSearch.appendFormattedDescription v →
        ∃ pre hex rest, hex.length = 6 ∧
          (∀ c ∈ hex, ItemSearch.isHexDigit c = true) ∧
          (ItemSearch.descText v).toList =
            pre ++ ItemSearch.openLit ++ hex ++ '>' ::
              (t.toList ++ ItemSearch.closeLit ++ rest) ∧
          ∀ u w, t.toList ≠ u ++ ItemSearch.closeLit ++ w)
    ∧ (∀ pre inner rest,
        ItemSearch.findSpan (ItemSearch.descText v).toList =
          some (pre, inner, rest) →
        ItemSearch.RNode.strong (String.mk inner) ∈
          ItemSearch.appendFormattedDescription v) := by
  refine ⟨?_, ?_, ?_⟩
  · rintro (rfl | rfl)
    · decide
    · decide
  · intro t ht
    exact ItemSearch.strong_mem_spec
      (ItemSearch.descText v).toList.length (ItemSearch.descText v).toList
      t ht
  · intro pre inner rest hf
    unfold ItemSearch.appendFormattedDescription
    cases hs : (ItemSearch.descText v).toList with
    | nil =>
      rw [hs] at hf
      simp [ItemSearch.findSpan] at hf
    | cons c cs =>
      rw [hs] at hf
      simp only [List.length_cons, ItemSearch.formatDescLoopF]
      simp only [hf]
      by_cases hp : pre.isEmpty
      · simp [hp]
      · simp [hp]

/-- C10 witness: the amended theorem applied at concrete inputs — the
missing-description default, and a strong element produced from the
leftmost span of a concrete description. -/
theorem C10_description_rendering_witness :
    ItemSearch.appendFormattedDescription none =
      [ItemSearch.RNode.text "No description yet."]
    ∧ ItemSearch.RNode.strong (String.mk "red".toList) ∈
        ItemSearch.appendFormattedDescription
          (some "a <color=#ff0000>red</color> b") :=
  ⟨(C10_description_rendering none).1 (Or.inl rfl),
   (C10_description_rendering (some "a <color=#ff0000>red</color> b")).2.2
     "a ".toList "red".toList " b".toList (by decide)⟩
